import Mathlib

/-!
Shallow embedding of `src/transaction_app.py` (a transaction-ledger
application) together with proofs of the specification claims.

Modelling conventions:
* Python machine-level values that can reach the validated attribute
  setters are modelled by the inductive universe `PyVal` (`None`, `bool`,
  `int`, `float`, `str`, `datetime`).  Python `bool` is a subclass of
  `int`, so `isinstance (True, int)` holds; the model mirrors this.
* Python floats are modelled exactly by `PyFloat`: a value `m / 10^e`.
  Every IEEE double is a decimal-representable rational and `repr` /
  `float` round-trip exactly in Python 3, so this captures the value
  behaviour used by the program (comparison, printing, parsing) without
  bit-level IEEE detail.  `NaN`/`inf` and exponent notation are outside
  the modelled subset.
* `datetime` objects are the record `PyDateTime`; the validity predicate
  mirrors the constructor checks of `datetime.datetime` (year 1..9999,
  month/day ranges with leap years, etc.).
* Exceptions are modelled by returning the message string; stateful
  methods return `state × Option String` (the state reached when the
  method returns or raises, plus the raised message if any).
* The CSV layer is modelled at the `csv.DictReader`/`csv.DictWriter`
  level: a file is a list of `CsvRow`s (field strings keyed by the fixed
  header), since the Python `csv` module round-trips arbitrary field
  strings.  A missing field is `Option.none` (DictReader's `restval`).
-/

/-- Exact model of a Python float: the rational value `m / 10 ^ e`. -/
structure PyFloat where
  m : Int
  e : Nat
deriving DecidableEq, Repr

/-- Rational value of a modelled float. -/
def PyFloat.val (d : PyFloat) : ℚ := (d.m : ℚ) / (10 : ℚ) ^ d.e

/-- Model of a Python `datetime.datetime` value. -/
structure PyDateTime where
  year : Nat
  month : Nat
  day : Nat
  hour : Nat
  minute : Nat
  second : Nat
  microsecond : Nat
deriving DecidableEq, Repr

/-- Leap-year rule of the proleptic Gregorian calendar used by `datetime`. -/
def isLeapYear (y : Nat) : Bool :=
  y % 4 == 0 && (y % 100 != 0 || y % 400 == 0)

/-- Number of days in a month, as enforced by the `datetime` constructor. -/
def daysInMonth (y m : Nat) : Nat :=
  if m == 2 then (if isLeapYear y then 29 else 28)
  else if m == 4 || m == 6 || m == 9 || m == 11 then 30
  else 31

/-- Invariant of every constructible Python `datetime` value
(`MINYEAR = 1`, `MAXYEAR = 9999`, field ranges). -/
abbrev PyDateTime.Valid (dt : PyDateTime) : Prop :=
  1 ≤ dt.year ∧ dt.year ≤ 9999 ∧ 1 ≤ dt.month ∧ dt.month ≤ 12 ∧
  1 ≤ dt.day ∧ dt.day ≤ daysInMonth dt.year dt.month ∧
  dt.hour ≤ 23 ∧ dt.minute ≤ 59 ∧ dt.second ≤ 59 ∧ dt.microsecond ≤ 999999

/-- Truncation of a datetime to one-second precision (what the
`%Y-%m-%d %H:%M:%S` format keeps). -/
def PyDateTime.truncSec (dt : PyDateTime) : PyDateTime :=
  { dt with microsecond := 0 }

/-- Model of a Python number (`int` or `float`), the type of the
`amount` attribute after validation. -/
inductive PyNum where
  | int (n : Int)
  | float (d : PyFloat)
deriving DecidableEq, Repr

/-- Numeric value of a Python number; Python compares `int` and `float`
by exact value. -/
def PyNum.val : PyNum → ℚ
  | .int n => (n : ℚ)
  | .float d => d.val

/-- Universe of Python values that can be handed to the validated
attribute setters of `Transaction`. -/
inductive PyVal where
  | vnone
  | vbool (b : Bool)
  | vint (n : Int)
  | vfloat (d : PyFloat)
  | vstr (s : String)
  | vdatetime (dt : PyDateTime)
deriving DecidableEq, Repr

/-- Model of `isinstance(v, int)`; Python `bool` is a subclass of `int`. -/
def PyVal.isInstInt : PyVal → Bool
  | .vint _ => true
  | .vbool _ => true
  | _ => false

/-- Model of `isinstance(v, float)`. -/
def PyVal.isInstFloat : PyVal → Bool
  | .vfloat _ => true
  | _ => false

/-- Model of `isinstance(v, datetime)`. -/
def PyVal.isInstDatetime : PyVal → Bool
  | .vdatetime _ => true
  | _ => false

/-- Model of `isinstance(v, str)`. -/
def PyVal.isInstStr : PyVal → Bool
  | .vstr _ => true
  | _ => false

/-- Integer value of a Python value known to be an `int`
(`True == 1`, `False == 0`); `0` on the other constructors, where it is
never consulted. -/
def PyVal.intVal : PyVal → Int
  | .vint n => n
  | .vbool b => if b then 1 else 0
  | _ => 0

/-- The four validated attributes of `Transaction`, in the order
`__init__` assigns them. -/
inductive TransField where
  | id
  | date_time
  | amount
  | description
deriving DecidableEq, Repr

/-- Validation message raised by `Transaction.__setattr__` for each
attribute (source lines 23-30); the message names the failing field. -/
def fieldErrMsg : TransField → String
  | .id => "ID должен быть положительным целым числом"
  | .date_time => "Дата должна быть объектом datetime"
  | .amount => "Сумма должна быть числом"
  | .description => "Описание должно быть строкой"

/-- Per-field validity check of `Transaction.__setattr__`:
`id` must be an `int` that is not negative, `date_time` a `datetime`,
`amount` an `int` or `float`, `description` a `str`. -/
def fieldValid : TransField → PyVal → Bool
  | .id, v => v.isInstInt && decide (0 ≤ v.intVal)
  | .date_time, v => v.isInstDatetime
  | .amount, v => v.isInstInt || v.isInstFloat
  | .description, v => v.isInstStr

/-- A partially constructed `Transaction` object: which attributes have
been stored so far (in Python, `object.__setattr__` has run for them). -/
structure TransactionObj where
  id? : Option PyVal
  date_time? : Option PyVal
  amount? : Option PyVal
  description? : Option PyVal
deriving DecidableEq, Repr

/-- Store one attribute on a partial object. -/
def TransactionObj.store (o : TransactionObj) (f : TransField) (v : PyVal) :
    TransactionObj :=
  match f with
  | .id => { o with id? := some v }
  | .date_time => { o with date_time? := some v }
  | .amount => { o with amount? := some v }
  | .description => { o with description? := some v }

/-- Model of `Transaction.__setattr__` (source lines 21-31): validate the
value for the named attribute; on success store it, on failure raise the
field's `ValueError` message and leave the object as it was. -/
def TransactionObj.setattr (o : TransactionObj) (f : TransField) (v : PyVal) :
    TransactionObj × Option String :=
  if fieldValid f v then (o.store f v, Option.none)
  else (o, some (fieldErrMsg f))

/-- The empty object `object.__new__` hands to `__init__`. -/
def TransactionObj.fresh : TransactionObj :=
  ⟨Option.none, Option.none, Option.none, Option.none⟩

/-- Model of `Transaction.__init__` (source lines 8-12): assign `id`,
`date_time`, `amount`, `description` in that order through the validating
`__setattr__`; stop at the first failure.  Returns the partial object
reached together with the raised message, if any. -/
def Transaction.init (idv dtv amv dev : PyVal) :
    TransactionObj × Option String :=
  match TransactionObj.fresh.setattr .id idv with
  | (o, some e) => (o, some e)
  | (o1, Option.none) =>
    match o1.setattr .date_time dtv with
    | (o, some e) => (o, some e)
    | (o2, Option.none) =>
      match o2.setattr .amount amv with
      | (o, some e) => (o, some e)
      | (o3, Option.none) =>
        match o3.setattr .description dev with
        | (o, some e) => (o, some e)
        | (o4, Option.none) => (o4, Option.none)

/-- First invalid field among the four constructor arguments, in
assignment order; `Option.none` when construction succeeds. -/
def firstInvalid (idv dtv amv dev : PyVal) : Option TransField :=
  if !fieldValid .id idv then some .id
  else if !fieldValid .date_time dtv then some .date_time
  else if !fieldValid .amount amv then some .amount
  else if !fieldValid .description dev then some .description
  else Option.none

/-- The partial object holding exactly the attributes assigned before
field `f` in construction order. -/
def objBefore (f : TransField) (idv dtv amv : PyVal) : TransactionObj :=
  match f with
  | .id => TransactionObj.fresh
  | .date_time => ⟨some idv, Option.none, Option.none, Option.none⟩
  | .amount => ⟨some idv, some dtv, Option.none, Option.none⟩
  | .description => ⟨some idv, some dtv, some amv, Option.none⟩

/-- Model of the static helper
`TransactionCollection.validate_transaction_data` (source lines 48-59):
the same four checks as `__setattr__`, as early-return booleans. -/
def TransactionCollection.validate_transaction_data
    (id date_time amount description : PyVal) : Bool :=
  if !id.isInstInt || id.intVal < 0 then false
  else if !date_time.isInstDatetime then false
  else if !(amount.isInstInt || amount.isInstFloat) then false
  else if !description.isInstStr then false
  else true

/-- Decimal digits of a natural number, most significant first
(the digits `str(n)` prints for `n ≥ 0`). -/
def natDigits (n : Nat) : List Char :=
  if _h : n < 10 then [Nat.digitChar n]
  else natDigits (n / 10) ++ [Nat.digitChar (n % 10)]
termination_by n
decreasing_by
  exact Nat.div_lt_self (by omega) (by omega)

/-- Model of Python `str(n)` for a natural number. -/
def natStr (n : Nat) : String := String.mk (natDigits n)

/-- Model of Python `str(n)` for an `int`. -/
def intStr (n : Int) : String :=
  if n < 0 then "-" ++ natStr n.natAbs else natStr n.natAbs

/-- Two-digit zero-padded field (`%02d`), for `n < 100`. -/
def pad2 (n : Nat) : List Char :=
  [Nat.digitChar (n / 10), Nat.digitChar (n % 10)]

/-- Four-digit zero-padded field (`%04d`), for `n < 10000`. -/
def pad4 (n : Nat) : List Char :=
  [Nat.digitChar (n / 1000), Nat.digitChar (n / 100 % 10),
   Nat.digitChar (n / 10 % 10), Nat.digitChar (n % 10)]

/-- The validated `Transaction` entity: field values after a successful
construction (`id` a non-negative integer — a Python `bool` id is kept by
its integer value —, `date_time` a datetime, `amount` numeric,
`description` a string). -/
structure Transaction where
  id : Int
  date_time : PyDateTime
  amount : PyNum
  description : String
deriving DecidableEq, Repr

/-- Well-formedness of an entity value: what every `Transaction` built by
the validated constructor from constructible Python values satisfies. -/
abbrev Transaction.Valid (t : Transaction) : Prop :=
  0 ≤ t.id ∧ t.date_time.Valid

/-- Integer division rounding half to even (the rounding Python's
`format(x, '.2f')` applies to the decimal value); `b` must be positive. -/
def divRoundHalfEven (a : Int) (b : Int) : Int :=
  let q := Int.fdiv a b
  let r := a - q * b
  if 2 * r < b then q
  else if b < 2 * r then q + 1
  else if q % 2 == 0 then q else q + 1

/-- The amount rounded to an integer number of cents, as `'{:.2f}'`
rounds it. -/
def PyNum.cents : PyNum → Int
  | .int n => n * 100
  | .float d =>
    if d.e ≤ 2 then d.m * (10 : Int) ^ (2 - d.e)
    else divRoundHalfEven d.m ((10 : Int) ^ (d.e - 2))

/-- Model of `f"{amount:.2f}"`: the amount with exactly two decimal
places (the sign of a negative zero is not tracked). -/
def PyNum.format2f (x : PyNum) : String :=
  let c := x.cents
  (if c < 0 then "-" else "") ++ natStr (c.natAbs / 100) ++ "." ++
    String.mk (pad2 (c.natAbs % 100))

/-- Model of `str(dt)` (`datetime.__str__`): ISO format with a space
separator, fractional part shown only when the microsecond is nonzero. -/
def PyDateTime.toDisplay (dt : PyDateTime) : String :=
  String.mk (pad4 dt.year) ++ "-" ++ String.mk (pad2 dt.month) ++ "-" ++
    String.mk (pad2 dt.day) ++ " " ++ String.mk (pad2 dt.hour) ++ ":" ++
    String.mk (pad2 dt.minute) ++ ":" ++ String.mk (pad2 dt.second) ++
    (if dt.microsecond == 0 then "" else
      "." ++ String.mk (pad2 (dt.microsecond / 10000)) ++
        String.mk (pad2 (dt.microsecond / 100 % 100)) ++
        String.mk (pad2 (dt.microsecond % 100)))

/-- Model of `Transaction.__str__` (source line 19):
`№{id} | {date_time} | {amount:.2f} | {description}`. -/
def Transaction.toDisplay (t : Transaction) : String :=
  "№" ++ intStr t.id ++ " | " ++ t.date_time.toDisplay ++ " | " ++
    t.amount.format2f ++ " | " ++ t.description

/-- Accumulating decimal value of a digit string. -/
def digitsValAux (acc : Nat) : List Char → Nat
  | [] => acc
  | c :: r => digitsValAux (acc * 10 + (c.toNat - 48)) r

/-- Decimal value of a digit string. -/
def digitsVal (l : List Char) : Nat := digitsValAux 0 l

/-- Parse of a non-empty all-digit string into a natural number.
Returns `Option.none` on anything else. -/
def parseNatAll (l : List Char) : Option Nat :=
  if l ≠ [] ∧ l.all Char.isDigit then some (digitsVal l) else Option.none

/-- Model of Python `int(s)`: optional sign followed by digits.
(The surrounding-whitespace and underscore tolerance of `int` is outside
the modelled subset; the program only feeds back its own output.) -/
def pyIntOfString (s : String) : Option Int :=
  match s.toList with
  | '-' :: r => (parseNatAll r).map (fun n => -(n : Int))
  | '+' :: r => (parseNatAll r).map (fun n => (n : Int))
  | l => (parseNatAll l).map (fun n => (n : Int))

/-- Core of Python `float(s)` on the unsigned part: digits optionally
followed by a dot and more digits. -/
def pyFloatCore (l : List Char) : Option PyFloat :=
  let ds := l.takeWhile Char.isDigit
  let rest := l.dropWhile Char.isDigit
  if ds = [] then Option.none
  else
    match rest with
    | [] => some ⟨(digitsVal ds : Int), 0⟩
    | '.' :: fs =>
      if fs ≠ [] ∧ fs.all Char.isDigit then
        some ⟨(digitsVal ds : Int) * (10 : Int) ^ fs.length + (digitsVal fs : Int),
          fs.length⟩
      else Option.none
    | _ => Option.none

/-- Model of Python `float(s)` on the decimal subset the program writes
(optional sign, digits, optional fractional part; exponent notation,
`inf`/`nan` and `"1."`/`".5"` forms are outside the modelled subset). -/
def pyFloatOfString (s : String) : Option PyFloat :=
  match s.toList with
  | '-' :: r => (pyFloatCore r).map (fun d => ⟨-d.m, d.e⟩)
  | '+' :: r => pyFloatCore r
  | l => pyFloatCore l

/-- Decimal digits of the fractional part, zero-padded on the left to
exactly `e` digits (for `k < 10 ^ e`). -/
def padFrac (e k : Nat) : List Char :=
  List.replicate (e - (natDigits k).length) '0' ++ natDigits k

/-- Model of `str(x)` for a float: sign, integer part, and — when the
exponent is positive — a dot and the `e`-digit fractional part.
(Python prints the shortest decimal that parses back to the same value;
the model prints the exact decimal, which parses back to the same value
as well, and never switches to exponent notation.) -/
def pyFloatStr (d : PyFloat) : String :=
  let n := d.m.natAbs
  (if d.m < 0 then "-" else "") ++
    (if d.e = 0 then natStr n
     else natStr (n / 10 ^ d.e) ++ "." ++ String.mk (padFrac d.e (n % 10 ^ d.e)))

/-- Model of `str(x)` for an `int`-or-`float` amount, as
`csv.DictWriter` stringifies it. -/
def PyNum.toCsvString : PyNum → String
  | .int n => intStr n
  | .float d => pyFloatStr d

/-- Parse one character as a decimal digit. -/
def parseDigit (c : Char) : Option Nat :=
  if c.isDigit then some (c.toNat - 48) else Option.none

/-- Parse exactly two digits. -/
def parse2 : List Char → Option (Nat × List Char)
  | a :: b :: r =>
    match parseDigit a, parseDigit b with
    | some x, some y => some (x * 10 + y, r)
    | _, _ => Option.none
  | _ => Option.none

/-- Parse exactly four digits. -/
def parse4 : List Char → Option (Nat × List Char)
  | a :: b :: c :: d :: r =>
    match parseDigit a, parseDigit b, parseDigit c, parseDigit d with
    | some x, some y, some z, some w =>
      some (((x * 10 + y) * 10 + z) * 10 + w, r)
    | _, _, _, _ => Option.none
  | _ => Option.none

/-- Consume one expected separator character. -/
def expectCh (c : Char) : List Char → Option (List Char)
  | x :: r => if x = c then some r else Option.none
  | [] => Option.none

/-- Model of `datetime.strftime('%Y-%m-%d %H:%M:%S')`: zero-padded
fields, one-second precision. -/
def strftimeYmdHMS (dt : PyDateTime) : String :=
  String.mk (pad4 dt.year ++ ('-' :: (pad2 dt.month ++ ('-' :: (pad2 dt.day ++
    (' ' :: (pad2 dt.hour ++ (':' :: (pad2 dt.minute ++
      (':' :: pad2 dt.second))))))))))

/-- Model of `datetime.strptime(s, '%Y-%m-%d %H:%M:%S')` on the padded
strings the program writes: fixed-width fields, separators, end of
input, and the range checks `strptime` and the `datetime` constructor
enforce.  The parsed microsecond is `0`. -/
def strptimeYmdHMS (s : String) : Option PyDateTime := do
  let l := s.toList
  let (y, l) ← parse4 l
  let l ← expectCh '-' l
  let (mo, l) ← parse2 l
  let l ← expectCh '-' l
  let (d, l) ← parse2 l
  let l ← expectCh ' ' l
  let (h, l) ← parse2 l
  let l ← expectCh ':' l
  let (mi, l) ← parse2 l
  let l ← expectCh ':' l
  let (sec, l) ← parse2 l
  if l = [] ∧ 1 ≤ y ∧ 1 ≤ mo ∧ mo ≤ 12 ∧ 1 ≤ d ∧ d ≤ daysInMonth y mo ∧
      h ≤ 23 ∧ mi ≤ 59 ∧ sec ≤ 59 then
    some ⟨y, mo, d, h, mi, sec, 0⟩
  else Option.none

/-- One data row of the CSV file at the `DictReader`/`DictWriter` level:
the field strings under the four fixed header labels
(`№`, `дата и время`, `сумма`, `описание транзакции`).
`Option.none` is a field absent from a short row (`DictReader` supplies
its `restval`, `None`). -/
structure CsvRow where
  idField : Option String
  dateField : Option String
  amountField : Option String
  descField : Option String
deriving DecidableEq, Repr

/-- Test whether `nd` is an initial segment of `l`. -/
def leadsWith : List Char → List Char → Bool
  | [], _ => true
  | _ :: _, [] => false
  | a :: ns, b :: hs => a == b && leadsWith ns hs

/-- Model of Python `nd in hay` on strings (as character lists):
contiguous-substring containment. -/
def hasSeg (nd : List Char) : List Char → Bool
  | [] => nd.isEmpty
  | h :: t => leadsWith nd (h :: t) || hasSeg nd t

/-- Argument universe of `add_transaction`: either a (validated)
`Transaction` instance or any other Python value. -/
inductive PyArg where
  | trans (t : Transaction)
  | other (v : PyVal)
deriving DecidableEq, Repr

/-- Message of the `ValueError` raised by
`TransactionManager.add_transaction` on a non-`Transaction` argument
(source line 84). -/
def addErrMsg : String := "Можно добавлять только объекты Transaction"

/-- Model of `TransactionManager.add_transaction` (source lines 81-85):
raise unless the argument is a `Transaction`, else append it to
`self._transactions`.  The manager state is the `_transactions` list;
the result pairs the state when the method returns or raises with the
raised message, if any. -/
def TransactionManager.add_transaction (ts : List Transaction) (a : PyArg) :
    List Transaction × Option String :=
  match a with
  | .other _ => (ts, some addErrMsg)
  | .trans t => (ts ++ [t], Option.none)

/-- Comparison of two transactions by the sort key
`lambda x: x.description` (Python string `<=` is code-point
lexicographic, matched by the `String` linear order used here). -/
def descrLe (a b : Transaction) : Bool :=
  decide (a.description ≤ b.description)

/-- Comparison of two transactions by the sort key `lambda x: x.amount`
(numeric comparison of Python numbers). -/
def amountLe (a b : Transaction) : Bool :=
  decide (a.amount.val ≤ b.amount.val)

/-- Model of `TransactionManager.sort_by_description` (source lines
87-89): `list.sort` is a stable in-place sort by the key; modelled as a
stable merge sort of the `_transactions` list. -/
def TransactionManager.sort_by_description (ts : List Transaction) :
    List Transaction :=
  ts.mergeSort descrLe

/-- Model of `TransactionManager.sort_by_amount` (source lines 91-93):
stable sort with `key=lambda x: x.amount`, numeric comparison. -/
def TransactionManager.sort_by_amount (ts : List Transaction) :
    List Transaction :=
  ts.mergeSort amountLe

/-- Model of the generator `TransactionManager.filter_by_amount`
(source lines 95-99), as the finite sequence it yields: the
transactions with `amount >= min_amount`, in collection order.  The
generator only reads `self._transactions`; it never mutates it. -/
def TransactionManager.filter_by_amount (min_amount : PyNum) :
    List Transaction → List Transaction
  | [] => []
  | t :: ts =>
    if t.amount.val ≥ min_amount.val then
      t :: TransactionManager.filter_by_amount min_amount ts
    else TransactionManager.filter_by_amount min_amount ts

/-- Model of the body of the `load_from_csv` loop for one row (source
lines 119-124): evaluate `int(row['№'])`,
`datetime.strptime(row['дата и время'], ...)`, `float(row['сумма'])`
and `row['описание транзакции']` in keyword order — each parse can
raise — then construct the `Transaction`, whose `__setattr__` re-checks
the fields (a parsed negative id is rejected there). -/
def parseRow (r : CsvRow) : Except String Transaction :=
  match r.idField with
  | Option.none => Except.error "int() argument must not be None"
  | some s =>
    match pyIntOfString s with
    | Option.none => Except.error ("invalid literal for int(): " ++ s)
    | some i =>
      match r.dateField with
      | Option.none => Except.error "strptime() argument must not be None"
      | some sd =>
        match strptimeYmdHMS sd with
        | Option.none => Except.error ("time data does not match format: " ++ sd)
        | some dt =>
          match r.amountField with
          | Option.none => Except.error "float() argument must not be None"
          | some sa =>
            match pyFloatOfString sa with
            | Option.none =>
              Except.error ("could not convert string to float: " ++ sa)
            | some am =>
              match r.descField with
              | Option.none => Except.error (fieldErrMsg .description)
              | some de =>
                if i < 0 then Except.error (fieldErrMsg .id)
                else Except.ok ⟨i, dt, PyNum.float am, de⟩

/-- Model of the row loop of `TransactionManager.load_from_csv` (source
lines 118-125): construct and add row by row, stopping at the first
raising row; the rows already added stay appended. -/
def TransactionManager.loadRows (ts : List Transaction) :
    List CsvRow → List Transaction × Option String
  | [] => (ts, Option.none)
  | r :: rs =>
    match parseRow r with
    | Except.error e => (ts, some e)
    | Except.ok t =>
      match TransactionManager.add_transaction ts (.trans t) with
      | (ts1, some e) => (ts1, some e)
      | (ts1, Option.none) => TransactionManager.loadRows ts1 rs

/-- Message of the `FileNotFoundError` re-raised by `load_from_csv`
(source line 127); it carries the source name. -/
def notFoundMsg (filename : String) : String :=
  "Файл " ++ filename ++ " не найден!"

/-- Model of `TransactionManager.load_from_csv` (source lines 113-127):
a file is `Option.none` when `open` raises `FileNotFoundError`
(re-raised with the filename in the message), otherwise its list of
data rows, processed in order. -/
def TransactionManager.load_from_csv (filename : String)
    (file : Option (List CsvRow)) (ts : List Transaction) :
    List Transaction × Option String :=
  match file with
  | Option.none => (ts, some (notFoundMsg filename))
  | some rows => TransactionManager.loadRows ts rows

/-- Model of one row written by `TransactionManager.save_to_csv`
(source lines 136-141): `DictWriter` stringifies the id, the formatted
datetime and the amount; the description is written as-is. -/
def saveRow (t : Transaction) : CsvRow :=
  ⟨some (intStr t.id), some (strftimeYmdHMS t.date_time),
    some t.amount.toCsvString, some t.description⟩

/-- Model of `TransactionManager.save_to_csv` (source lines 129-141):
the header row is fixed and implicit in the `CsvRow` field layout; the
data rows are the collection in order. -/
def TransactionManager.save_to_csv (ts : List Transaction) : List CsvRow :=
  ts.map saveRow

/-- Model of the alternative constructor `TransactionManager.from_csv`
(source lines 106-111): a fresh empty manager, then `load_from_csv`. -/
def TransactionManager.from_csv (filename : String)
    (file : Option (List CsvRow)) : List Transaction × Option String :=
  TransactionManager.load_from_csv filename file []

/-- State of an `ExtendedTransactionManager`: the inherited
`_transactions` list plus the `_history` list of
`(timestamp, action, rendered transaction)` entries. -/
structure ExtendedTransactionManager where
  _transactions : List Transaction
  _history : List (PyDateTime × String × String)
deriving DecidableEq, Repr

/-- The string `str(transaction)` appended to the history; for a
non-`Transaction` argument the base add has already raised, so that
branch is never consulted. -/
def strOfArg : PyArg → String
  | .trans t => t.toDisplay
  | .other _ => ""

/-- Model of `ExtendedTransactionManager.add_transaction` (source lines
150-153): run the base add — if it raises, the history is untouched —
then append `(datetime.now(), "ADD", str(transaction))`.  The current
clock reading is passed explicitly as `now`. -/
def ExtendedTransactionManager.add_transaction
    (s : ExtendedTransactionManager) (now : PyDateTime) (a : PyArg) :
    ExtendedTransactionManager × Option String :=
  match TransactionManager.add_transaction s._transactions a with
  | (ts1, some e) => ({ s with _transactions := ts1 }, some e)
  | (ts1, Option.none) =>
    (⟨ts1, s._history ++ [(now, "ADD", strOfArg a)]⟩, Option.none)

/-- Model of the generator
`ExtendedTransactionManager.get_transactions_by_description` (source
lines 155-159), as the finite sequence it yields.  `x in y` on strings
is substring containment; `str.lower` is modelled by `Char.toLower`
(ASCII case folding; the full Unicode folding of Python agrees on the
inputs of interest). -/
def ExtendedTransactionManager.get_transactions_by_description
    (keyword : String) : List Transaction → List Transaction
  | [] => []
  | t :: ts =>
    if hasSeg (keyword.toList.map Char.toLower)
        (t.description.toList.map Char.toLower) then
      t :: ExtendedTransactionManager.get_transactions_by_description keyword ts
    else ExtendedTransactionManager.get_transactions_by_description keyword ts

/-- Model of the loop of `load_from_csv` as inherited by
`ExtendedTransactionManager`, where `self.add_transaction` is the
overridden method: each added row also appends a history entry.  The
clock is passed as a function of the number of `datetime.now()` calls
made so far, starting at `k`. -/
def ExtendedTransactionManager.loadRows (clock : Nat → PyDateTime) (k : Nat)
    (s : ExtendedTransactionManager) :
    List CsvRow → ExtendedTransactionManager × Option String
  | [] => (s, Option.none)
  | r :: rs =>
    match parseRow r with
    | Except.error e => (s, some e)
    | Except.ok t =>
      match s.add_transaction (clock k) (.trans t) with
      | (s1, some e) => (s1, some e)
      | (s1, Option.none) => ExtendedTransactionManager.loadRows clock (k + 1) s1 rs

/-- The history entries produced by adding the transactions `ws` in
order, with clock readings starting at call index `k`. -/
def histEntries (clock : Nat → PyDateTime) :
    Nat → List Transaction → List (PyDateTime × String × String)
  | _, [] => []
  | k, t :: ts => (clock k, "ADD", t.toDisplay) :: histEntries clock (k + 1) ts

/-- The transaction obtained back after one save/load round trip: the
same id and description, the timestamp truncated to whole seconds, and
the amount reparsed as a float of the same value. -/
def reload (t : Transaction) : Transaction :=
  { t with
    date_time := t.date_time.truncSec
    amount := PyNum.float (match t.amount with
      | .int n => ⟨n, 0⟩
      | .float d => d) }

/-- Parse of a whole row list, stopping at the first failing row (the
`mapM` of `parseRow`, written recursively for easy induction). -/
def parseAll : List CsvRow → Except String (List Transaction)
  | [] => Except.ok []
  | r :: rs =>
    match parseRow r with
    | Except.error e => Except.error e
    | Except.ok t =>
      match parseAll rs with
      | Except.error e => Except.error e
      | Except.ok ts => Except.ok (t :: ts)

/-- A concrete valid datetime used in examples and witnesses. -/
def dtEx : PyDateTime := ⟨2024, 3, 1, 14, 30, 0, 0⟩

/-- Example transaction whose description "invoice ref-22" contains
"REF" case-insensitively. -/
def tRef1 : Transaction := ⟨1, dtEx, PyNum.int 10, "invoice ref-22"⟩

/-- Example transaction whose description "REFUND" contains "REF". -/
def tRef2 : Transaction := ⟨2, dtEx, PyNum.int 20, "REFUND"⟩

/-- Example transaction whose description "payment" does not contain
"REF". -/
def tPay : Transaction := ⟨3, dtEx, PyNum.int 30, "payment"⟩

/-- A concrete well-formed CSV row. -/
def rowOk : CsvRow :=
  ⟨some "1", some "2024-03-01 14:30:00", some "5.0", some "x"⟩

/-- The transaction `rowOk` parses to. -/
def tOk : Transaction := ⟨1, dtEx, PyNum.float ⟨50, 1⟩, "x"⟩

/-- A concrete malformed CSV row (its id field is not an integer). -/
def rowBad : CsvRow :=
  ⟨some "abc", some "2024-03-01 14:30:00", some "5.0", some "y"⟩

/-! ### Helper lemmas: decimal digit strings -/

/-- Unfolding of `toList` on a literal `String.mk`. -/
theorem strToList_mk (l : List Char) : (String.mk l).toList = l := rfl

/-- Unfolding of `toList` on an append. -/
theorem strToList_append (s t : String) :
    (s ++ t).toList = s.toList ++ t.toList := rfl

/-- Digit characters are digits. -/
theorem digitChar_isDigit {d : Nat} (h : d < 10) :
    (Nat.digitChar d).isDigit = true := by
  interval_cases d <;> decide

/-- Reading back the value of a digit character. -/
theorem digitChar_toNat {d : Nat} (h : d < 10) :
    (Nat.digitChar d).toNat - 48 = d := by
  interval_cases d <;> decide

/-- A digit character is not a sign character. -/
theorem digitChar_ne_signs {d : Nat} (h : d < 10) :
    Nat.digitChar d ≠ '-' ∧ Nat.digitChar d ≠ '+' := by
  interval_cases d <;> decide

/-- The digit string of a natural number is never empty. -/
theorem natDigits_ne_nil (n : Nat) : natDigits n ≠ [] := by
  unfold natDigits
  split <;> simp

/-- Every character of `natDigits` is a digit. -/
theorem natDigits_all_digits (n : Nat) :
    (natDigits n).all Char.isDigit = true := by
  induction n using natDigits.induct with
  | case1 n h =>
    rw [natDigits, dif_pos h]
    simp [digitChar_isDigit h]
  | case2 n h ih =>
    rw [natDigits, dif_neg h]
    simp only [List.all_append, ih, Bool.true_and]
    simp [digitChar_isDigit (Nat.mod_lt n (by omega))]

/-- Unfolding of `digitsValAux` on the empty list. -/
theorem dva_nil (acc : Nat) : digitsValAux acc [] = acc := rfl

/-- Unfolding of `digitsValAux` on a cons. -/
theorem dva_cons (acc : Nat) (c : Char) (r : List Char) :
    digitsValAux acc (c :: r) = digitsValAux (acc * 10 + (c.toNat - 48)) r := rfl

/-- Accumulator splitting for `digitsValAux` over an append. -/
theorem digitsValAux_append (acc : Nat) (l₁ l₂ : List Char) :
    digitsValAux acc (l₁ ++ l₂) = digitsValAux (digitsValAux acc l₁) l₂ := by
  induction l₁ generalizing acc with
  | nil => rfl
  | cons c r ih =>
    rw [List.cons_append, dva_cons, dva_cons, ih]

/-- Value of the digit string of `n`, with an accumulator. -/
theorem digitsValAux_natDigits (n acc : Nat) :
    digitsValAux acc (natDigits n) = acc * 10 ^ (natDigits n).length + n := by
  induction n using natDigits.induct generalizing acc with
  | case1 n h =>
    rw [natDigits, dif_pos h]
    rw [dva_cons, dva_nil]
    simp only [List.length_cons, List.length_nil]
    rw [digitChar_toNat h]
    ring
  | case2 n h ih =>
    rw [natDigits, dif_neg h]
    rw [digitsValAux_append, ih]
    rw [dva_cons, dva_nil]
    rw [digitChar_toNat (Nat.mod_lt n (by omega))]
    rw [List.length_append]
    simp only [List.length_cons, List.length_nil]
    rw [pow_add, pow_one]
    have := Nat.div_add_mod n 10
    ring_nf
    omega

/-- The digit string of `n` reads back as `n`. -/
theorem digitsVal_natDigits (n : Nat) : digitsVal (natDigits n) = n := by
  rw [digitsVal, digitsValAux_natDigits]
  simp

/-- A number below `10 ^ e` has at most `e` digits (for `e ≥ 1`). -/
theorem natDigits_length_le {n e : Nat} (he : 1 ≤ e) (h : n < 10 ^ e) :
    (natDigits n).length ≤ e := by
  induction n using natDigits.induct generalizing e with
  | case1 n hn =>
    rw [natDigits, dif_pos hn]
    simpa using he
  | case2 n hn ih =>
    rw [natDigits, dif_neg hn]
    rw [List.length_append]
    simp only [List.length_cons, List.length_nil]
    have he2 : 2 ≤ e := by
      by_contra hc
      have : e = 1 := by omega
      subst this
      simp at h
      omega
    have : n / 10 < 10 ^ (e - 1) := by
      have h10 : 10 ^ e = 10 ^ (e - 1) * 10 := by
        rw [← pow_succ]
        congr 1
        omega
      rw [h10] at h
      exact Nat.div_lt_of_lt_mul (by omega)
    have := ih (e := e - 1) (by omega) this
    omega

/-- `parseNatAll` inverts `natDigits`. -/
theorem parseNatAll_natDigits (n : Nat) :
    parseNatAll (natDigits n) = some n := by
  rw [parseNatAll, if_pos ⟨natDigits_ne_nil n, natDigits_all_digits n⟩,
    digitsVal_natDigits]

/-! ### Helper lemmas: `int` and `float` printing/parsing round trips -/

/-- A digit character is not the minus sign. -/
theorem isDigit_ne_minus {c : Char} (h : c.isDigit = true) : c ≠ '-' := by
  intro hc
  subst hc
  simp at h

/-- A digit character is not the plus sign. -/
theorem isDigit_ne_plus {c : Char} (h : c.isDigit = true) : c ≠ '+' := by
  intro hc
  subst hc
  simp at h

/-- On a string starting with a digit, `pyIntOfString` is the unsigned
parse. -/
theorem pyIntOfString_cons {c : Char} (r : List Char) (h1 : c ≠ '-')
    (h2 : c ≠ '+') :
    pyIntOfString (String.mk (c :: r)) =
      (parseNatAll (c :: r)).map (fun n => (n : Int)) := by
  unfold pyIntOfString
  rw [strToList_mk]
  split
  next r' heq =>
    exact absurd (List.cons.injEq .. ▸ heq).1 h1
  next r' heq =>
    exact absurd (List.cons.injEq .. ▸ heq).1 h2
  next =>
    rfl

/-- `pyIntOfString` inverts `natStr`. -/
theorem pyInt_natStr (n : Nat) : pyIntOfString (natStr n) = some (n : Int) := by
  rcases hl : natDigits n with _ | ⟨c, r⟩
  · exact absurd hl (natDigits_ne_nil n)
  · have hall := natDigits_all_digits n
    rw [hl] at hall
    have hc : c.isDigit = true := by
      rw [List.all_cons] at hall
      exact (Bool.and_eq_true_iff.mp hall).1
    rw [natStr, hl, pyIntOfString_cons r (isDigit_ne_minus hc) (isDigit_ne_plus hc)]
    rw [← hl, parseNatAll_natDigits]
    rfl

/-- `pyIntOfString` inverts `intStr` on the non-negative integers. -/
theorem pyInt_intStr {n : Int} (h : 0 ≤ n) :
    pyIntOfString (intStr n) = some n := by
  rw [intStr, if_neg (by omega), pyInt_natStr]
  congr 1
  omega

/-- On an all-digit string, `pyFloatCore` parses the whole string with
exponent `0`. -/
theorem pyFloatCore_digits (l : List Char) (h1 : l ≠ [])
    (h2 : l.all Char.isDigit = true) :
    pyFloatCore l = some ⟨(digitsVal l : Int), 0⟩ := by
  have hall : ∀ c ∈ l, c.isDigit = true := by
    simpa [List.all_eq_true] using h2
  unfold pyFloatCore
  have ht : l.takeWhile Char.isDigit = l := by
    conv_lhs => rw [← List.append_nil l]
    rw [List.takeWhile_append_of_pos hall]
    simp
  have hd : l.dropWhile Char.isDigit = [] := by
    conv_lhs => rw [← List.append_nil l]
    rw [List.dropWhile_append_of_pos hall]
    simp
  simp only [ht, hd]
  rw [if_neg (by simpa using h1)]

/-- The zero-padded fraction consists of digits. -/
theorem padFrac_all_digits (e k : Nat) :
    (padFrac e k).all Char.isDigit = true := by
  rw [padFrac, List.all_append, natDigits_all_digits, Bool.and_true]
  rw [List.all_eq_true]
  intro c hc
  rw [List.eq_of_mem_replicate hc]
  decide

/-- The zero-padded fraction is not empty. -/
theorem padFrac_ne_nil (e k : Nat) : padFrac e k ≠ [] := by
  rw [padFrac]
  intro h
  rcases List.append_eq_nil.mp h with ⟨-, h2⟩
  exact natDigits_ne_nil k h2

/-- The zero-padded fraction of a number below `10 ^ e` has exactly `e`
digits. -/
theorem padFrac_length {e k : Nat} (he : 1 ≤ e) (hk : k < 10 ^ e) :
    (padFrac e k).length = e := by
  rw [padFrac, List.length_append, List.length_replicate]
  have := natDigits_length_le he hk
  omega

/-- Leading zeros do not change the accumulated value. -/
theorem digitsValAux_replicate_zero (z : Nat) (acc : Nat) :
    digitsValAux acc (List.replicate z '0') = acc * 10 ^ z := by
  induction z generalizing acc with
  | zero => simp [dva_nil]
  | succ z ih =>
    rw [List.replicate_succ, dva_cons, ih]
    have : ('0'.toNat - 48) = 0 := by decide
    rw [this]
    ring

/-- The zero-padded fraction reads back as its value. -/
theorem digitsVal_padFrac (e k : Nat) : digitsVal (padFrac e k) = k := by
  rw [padFrac, digitsVal, digitsValAux_append, digitsValAux_replicate_zero]
  simpa using digitsVal_natDigits k

/-- `pyFloatCore` on an integer part, a dot and a padded fraction. -/
theorem pyFloatCore_frac (a : Nat) {e k : Nat} (he : 1 ≤ e)
    (hk : k < 10 ^ e) :
    pyFloatCore (natDigits a ++ '.' :: padFrac e k) =
      some ⟨(a : Int) * (10 : Int) ^ e + (k : Int), e⟩ := by
  have hall : ∀ c ∈ natDigits a, c.isDigit = true := by
    simpa [List.all_eq_true] using natDigits_all_digits a
  unfold pyFloatCore
  have ht : (natDigits a ++ '.' :: padFrac e k).takeWhile Char.isDigit =
      natDigits a := by
    rw [List.takeWhile_append_of_pos hall, List.takeWhile_cons_of_neg (by decide)]
    simp
  have hd : (natDigits a ++ '.' :: padFrac e k).dropWhile Char.isDigit =
      '.' :: padFrac e k := by
    rw [List.dropWhile_append_of_pos hall, List.dropWhile_cons_of_neg (by decide)]
  simp only [ht, hd]
  rw [if_neg (by simpa using natDigits_ne_nil a)]
  rw [if_pos ⟨padFrac_ne_nil e k, padFrac_all_digits e k⟩]
  rw [digitsVal_natDigits, digitsVal_padFrac, padFrac_length he hk]

/-- On a string starting with a digit, `pyFloatOfString` is the unsigned
parse. -/
theorem pyFloatOfString_cons {c : Char} (r : List Char) (h1 : c ≠ '-')
    (h2 : c ≠ '+') :
    pyFloatOfString (String.mk (c :: r)) = pyFloatCore (c :: r) := by
  unfold pyFloatOfString
  rw [strToList_mk]
  split
  next r' heq =>
    exact absurd (List.cons.injEq .. ▸ heq).1 h1
  next r' heq =>
    exact absurd (List.cons.injEq .. ▸ heq).1 h2
  next =>
    rfl

/-- On a minus sign followed by anything, `pyFloatOfString` negates the
unsigned parse. -/
theorem pyFloatOfString_neg (r : List Char) :
    pyFloatOfString (String.mk ('-' :: r)) =
      (pyFloatCore r).map (fun d => ⟨-d.m, d.e⟩) := rfl

/-- On a nonempty digit list, `pyFloatOfString` agrees with
`pyFloatCore`. -/
theorem pyFloatOfString_digits (l : List Char) (h1 : l ≠ [])
    (h2 : l.all Char.isDigit = true) :
    pyFloatOfString (String.mk l) = pyFloatCore l := by
  rcases l with _ | ⟨c, r⟩
  · exact absurd rfl h1
  · have hc : c.isDigit = true := by
      rw [List.all_cons] at h2
      exact (Bool.and_eq_true_iff.mp h2).1
    exact pyFloatOfString_cons r (isDigit_ne_minus hc) (isDigit_ne_plus hc)

/-- Prepending a minus sign at the string level. -/
theorem strDashCons (l : List Char) :
    ("-" ++ String.mk l) = String.mk ('-' :: l) := rfl

/-- `pyFloatOfString` inverts `pyFloatStr` exactly. -/
theorem pyFloat_pyFloatStr (d : PyFloat) :
    pyFloatOfString (pyFloatStr d) = some d := by
  obtain ⟨m, e⟩ := d
  rcases Nat.eq_zero_or_pos e with he | he
  · subst he
    rcases lt_or_le m 0 with hm | hm
    · have hs : pyFloatStr ⟨m, 0⟩ = String.mk ('-' :: natDigits m.natAbs) := by
        apply String.ext
        simp [pyFloatStr, hm, natStr]
      rw [hs, pyFloatOfString_neg,
        pyFloatCore_digits _ (natDigits_ne_nil _) (natDigits_all_digits _),
        digitsVal_natDigits, Option.map_some']
      show some (⟨-(m.natAbs : Int), 0⟩ : PyFloat) = some ⟨m, 0⟩
      simp only [Option.some.injEq, PyFloat.mk.injEq]
      exact ⟨by omega, by trivial⟩
    · have hs : pyFloatStr ⟨m, 0⟩ = String.mk (natDigits m.natAbs) := by
        apply String.ext
        simp [pyFloatStr, show ¬ m < 0 by omega, natStr]
      rw [hs,
        pyFloatOfString_digits _ (natDigits_ne_nil _) (natDigits_all_digits _),
        pyFloatCore_digits _ (natDigits_ne_nil _) (natDigits_all_digits _),
        digitsVal_natDigits]
      simp only [Option.some.injEq, PyFloat.mk.injEq]
      exact ⟨by omega, by trivial⟩
  · have he' : ¬ (e = 0) := by omega
    have hke : m.natAbs % 10 ^ e < 10 ^ e :=
      Nat.mod_lt _ (Nat.pos_pow_of_pos e (by omega))
    have hcore :
        pyFloatCore (natDigits (m.natAbs / 10 ^ e) ++ '.' ::
            padFrac e (m.natAbs % 10 ^ e)) =
          some ⟨(m.natAbs : Int), e⟩ := by
      rw [pyFloatCore_frac _ he hke]
      simp only [Option.some.injEq, PyFloat.mk.injEq]
      refine ⟨?_, by trivial⟩
      have h2 : m.natAbs / 10 ^ e * 10 ^ e + m.natAbs % 10 ^ e = m.natAbs := by
        rw [Nat.mul_comm]
        exact Nat.div_add_mod m.natAbs (10 ^ e)
      exact_mod_cast h2
    rcases lt_or_le m 0 with hm | hm
    · have hs : pyFloatStr ⟨m, e⟩ = String.mk ('-' ::
          (natDigits (m.natAbs / 10 ^ e) ++ '.' ::
            padFrac e (m.natAbs % 10 ^ e))) := by
        apply String.ext
        simp [pyFloatStr, hm, he', natStr]
      rw [hs, pyFloatOfString_neg, hcore, Option.map_some']
      show some (⟨-(m.natAbs : Int), e⟩ : PyFloat) = some ⟨m, e⟩
      simp only [Option.some.injEq, PyFloat.mk.injEq]
      exact ⟨by omega, by trivial⟩
    · have hs : pyFloatStr ⟨m, e⟩ = String.mk
          (natDigits (m.natAbs / 10 ^ e) ++ '.' ::
            padFrac e (m.natAbs % 10 ^ e)) := by
        apply String.ext
        simp [pyFloatStr, show ¬ m < 0 by omega, he', natStr]
      rcases hl : natDigits (m.natAbs / 10 ^ e) with _ | ⟨c, r⟩
      · exact absurd hl (natDigits_ne_nil _)
      · have hall := natDigits_all_digits (m.natAbs / 10 ^ e)
        rw [hl] at hall
        have hc : c.isDigit = true := by
          rw [List.all_cons] at hall
          exact (Bool.and_eq_true_iff.mp hall).1
        rw [hs, hl, List.cons_append,
          pyFloatOfString_cons _ (isDigit_ne_minus hc) (isDigit_ne_plus hc),
          ← List.cons_append, ← hl, hcore]
        simp only [Option.some.injEq, PyFloat.mk.injEq]
        exact ⟨by omega, by trivial⟩

/-- `pyFloatOfString` parses the printed form of an `int` amount as the
float of the same value. -/
theorem pyFloat_intStr (n : Int) :
    pyFloatOfString (intStr n) = some ⟨n, 0⟩ := by
  rcases lt_or_le n 0 with hn | hn
  · rw [intStr, if_pos hn, natStr, strDashCons, pyFloatOfString_neg,
      pyFloatCore_digits _ (natDigits_ne_nil _) (natDigits_all_digits _),
      digitsVal_natDigits, Option.map_some']
    show some (⟨-(n.natAbs : Int), 0⟩ : PyFloat) = some ⟨n, 0⟩
    simp only [Option.some.injEq, PyFloat.mk.injEq]
    exact ⟨by omega, by trivial⟩
  · rw [intStr, if_neg (by omega), natStr,
      pyFloatOfString_digits _ (natDigits_ne_nil _) (natDigits_all_digits _),
      pyFloatCore_digits _ (natDigits_ne_nil _) (natDigits_all_digits _),
      digitsVal_natDigits]
    simp only [Option.some.injEq, PyFloat.mk.injEq]
    exact ⟨by omega, by trivial⟩

/-! ### Helper lemmas: datetime format round trip -/

/-- `parseDigit` reads back a digit character. -/
theorem parseDigit_digitChar {d : Nat} (h : d < 10) :
    parseDigit (Nat.digitChar d) = some d := by
  interval_cases d <;> decide

/-- `parse2` inverts `pad2` and leaves the rest of the input. -/
theorem parse2_pad2 (n : Nat) (h : n < 100) (r : List Char) :
    parse2 (pad2 n ++ r) = some (n, r) := by
  have h1 : n / 10 < 10 := by omega
  have h2 : n % 10 < 10 := by omega
  rw [pad2]
  show parse2 (Nat.digitChar (n / 10) :: Nat.digitChar (n % 10) :: r) = _
  rw [parse2, parseDigit_digitChar h1, parseDigit_digitChar h2]
  simp only [Option.some.injEq, Prod.mk.injEq]
  exact ⟨by omega, by trivial⟩

/-- `parse2` inverts `pad2` at the end of input. -/
theorem parse2_pad2_nil (n : Nat) (h : n < 100) :
    parse2 (pad2 n) = some (n, []) := by
  rw [← List.append_nil (pad2 n)]
  exact parse2_pad2 n h []

/-- `parse4` inverts `pad4` and leaves the rest of the input. -/
theorem parse4_pad4 (n : Nat) (h : n < 10000) (r : List Char) :
    parse4 (pad4 n ++ r) = some (n, r) := by
  have h1 : n / 1000 < 10 := by omega
  have h2 : n / 100 % 10 < 10 := by omega
  have h3 : n / 10 % 10 < 10 := by omega
  have h4 : n % 10 < 10 := by omega
  rw [pad4]
  show parse4 (Nat.digitChar (n / 1000) :: Nat.digitChar (n / 100 % 10) ::
    Nat.digitChar (n / 10 % 10) :: Nat.digitChar (n % 10) :: r) = _
  rw [parse4, parseDigit_digitChar h1, parseDigit_digitChar h2,
    parseDigit_digitChar h3, parseDigit_digitChar h4]
  simp only [Option.some.injEq, Prod.mk.injEq]
  exact ⟨by omega, by trivial⟩

/-- `expectCh` consumes the expected character. -/
theorem expectCh_cons (c : Char) (r : List Char) :
    expectCh c (c :: r) = some r := by
  rw [expectCh]
  simp

/-- `strptime` inverts `strftime` on every valid datetime, truncating to
one-second precision. -/
theorem daysInMonth_le (y m : Nat) : daysInMonth y m ≤ 31 := by
  rw [daysInMonth]
  split_ifs <;> omega

theorem strptime_strftime {dt : PyDateTime} (h : dt.Valid) :
    strptimeYmdHMS (strftimeYmdHMS dt) = some dt.truncSec := by
  obtain ⟨h1, h2, h3, h4, h5, h6, h7, h8, h9, h10⟩ := h
  have hdm := daysInMonth_le dt.year dt.month
  simp only [strptimeYmdHMS, strftimeYmdHMS, strToList_mk]
  simp only [Option.bind_eq_bind, parse4_pad4 dt.year (by omega),
    parse2_pad2 dt.month (by omega), parse2_pad2 dt.day (by omega),
    parse2_pad2 dt.hour (by omega), parse2_pad2 dt.minute (by omega),
    parse2_pad2_nil dt.second (by omega), expectCh_cons, Option.some_bind]
  rw [if_pos ⟨trivial, h1, h3, h4, h5, h6, h7, h8, h9⟩]
  rw [PyDateTime.truncSec]

/-! ### Helper lemmas: row parsing and loading -/

/-- A saved row parses back to the reloaded transaction. -/
theorem parseRow_saveRow {t : Transaction} (h : t.Valid) :
    parseRow (saveRow t) = Except.ok (reload t) := by
  obtain ⟨hid, hdt⟩ := h
  rcases ham : t.amount with n | d
  · simp only [saveRow, parseRow, PyNum.toCsvString, ham, pyInt_intStr hid,
      strptime_strftime hdt, pyFloat_intStr]
    rw [if_neg (by omega)]
    simp [reload, ham]
  · simp only [saveRow, parseRow, PyNum.toCsvString, ham, pyInt_intStr hid,
      strptime_strftime hdt, pyFloat_pyFloatStr]
    rw [if_neg (by omega)]
    simp [reload, ham]

/-- Saving a list of valid transactions produces rows that all parse
back, to the reloaded transactions in order. -/
theorem parseAll_save {ts : List Transaction} (h : ∀ t ∈ ts, t.Valid) :
    parseAll (TransactionManager.save_to_csv ts) =
      Except.ok (ts.map reload) := by
  induction ts with
  | nil => rfl
  | cons t rest ih =>
    have ht : t.Valid := h t (List.mem_cons_self t rest)
    have hrest : ∀ u ∈ rest, u.Valid := fun u hu => h u (List.mem_cons_of_mem t hu)
    rw [TransactionManager.save_to_csv, List.map_cons]
    rw [parseAll, parseRow_saveRow ht]
    rw [← TransactionManager.save_to_csv, ih hrest]
    rw [List.map_cons]

/-- When every row parses, the load loop appends all parsed transactions
in order and raises nothing. -/
theorem loadRows_all_ok {rows : List CsvRow} {ws ts : List Transaction}
    (h : parseAll rows = Except.ok ws) :
    TransactionManager.loadRows ts rows = (ts ++ ws, Option.none) := by
  induction rows generalizing ws ts with
  | nil =>
    rw [parseAll] at h
    cases h
    simp [TransactionManager.loadRows]
  | cons r rs ih =>
    rw [parseAll] at h
    rcases hr : parseRow r with e | t <;> rw [hr] at h
    · cases h
    · rcases hrs : parseAll rs with e | us <;> rw [hrs] at h
      · cases h
      · cases h
        rw [TransactionManager.loadRows, hr]
        show TransactionManager.loadRows (ts ++ [t]) rs = _
        rw [ih hrs, List.append_assoc]
        rfl

/-- When the rows before position `k` parse and row `k` raises, the load
loop stops at row `k` with exactly the earlier transactions appended. -/
theorem loadRows_first_bad {good : List CsvRow} {ws : List Transaction}
    {bad : CsvRow} {e : String} (rest : List CsvRow) {ts : List Transaction}
    (hg : parseAll good = Except.ok ws) (hb : parseRow bad = Except.error e) :
    TransactionManager.loadRows ts (good ++ bad :: rest) =
      (ts ++ ws, some e) := by
  induction good generalizing ws ts with
  | nil =>
    rw [parseAll] at hg
    cases hg
    rw [List.nil_append, TransactionManager.loadRows, hb]
    simp
  | cons r rs ih =>
    rw [parseAll] at hg
    rcases hr : parseRow r with e' | t <;> rw [hr] at hg
    · cases hg
    · rcases hrs : parseAll rs with e' | us <;> rw [hrs] at hg
      · cases hg
      · cases hg
        rw [List.cons_append, TransactionManager.loadRows, hr]
        show TransactionManager.loadRows (ts ++ [t]) (rs ++ bad :: rest) = _
        rw [ih hrs, List.append_assoc]
        rfl

/-! ### Helper lemmas: substring containment -/

/-- `leadsWith` decides the initial-segment relation. -/
theorem leadsWith_iff (nd l : List Char) :
    leadsWith nd l = true ↔ ∃ q, l = nd ++ q := by
  induction nd generalizing l with
  | nil =>
    simp [leadsWith]
  | cons a ns ih =>
    cases l with
    | nil =>
      simp [leadsWith]
    | cons b hs =>
      rw [leadsWith, Bool.and_eq_true_iff, beq_iff_eq, ih]
      constructor
      · rintro ⟨rfl, q, rfl⟩
        exact ⟨q, rfl⟩
      · rintro ⟨q, hq⟩
        rcases List.cons.injEq .. ▸ hq with ⟨rfl, rfl⟩
        exact ⟨rfl, q, rfl⟩

/-- `hasSeg` decides contiguous-substring containment. -/
theorem hasSeg_iff (nd l : List Char) :
    hasSeg nd l = true ↔ ∃ p q, l = p ++ (nd ++ q) := by
  induction l with
  | nil =>
    rw [hasSeg]
    constructor
    · intro h
      refine ⟨[], [], ?_⟩
      have : nd = [] := by simpa using h
      simp [this]
    · rintro ⟨p, q, hpq⟩
      have := List.append_eq_nil.mp hpq.symm
      rcases this with ⟨rfl, h2⟩
      have := List.append_eq_nil.mp h2
      rcases this with ⟨rfl, rfl⟩
      rfl
  | cons c t ih =>
    rw [hasSeg, Bool.or_eq_true, leadsWith_iff, ih]
    constructor
    · rintro (⟨q, hq⟩ | ⟨p, q, hpq⟩)
      · exact ⟨[], q, by simp [hq]⟩
      · exact ⟨c :: p, q, by simp [hpq]⟩
    · rintro ⟨p, q, hpq⟩
      cases p with
      | nil =>
        exact Or.inl ⟨q, by simpa using hpq⟩
      | cons x xs =>
        rcases List.cons.injEq .. ▸ hpq with ⟨rfl, rfl⟩
        exact Or.inr ⟨xs, q, rfl⟩

/-- `descrLe` is transitive. -/
theorem descrLe_trans (a b c : Transaction) :
    descrLe a b → descrLe b c → descrLe a c := by
  simp only [descrLe, decide_eq_true_eq]
  exact le_trans

/-- `descrLe` is total. -/
theorem descrLe_total (a b : Transaction) : descrLe a b || descrLe b a := by
  simp only [descrLe, Bool.or_eq_true, decide_eq_true_eq]
  exact le_total _ _

/-- `amountLe` is transitive. -/
theorem amountLe_trans (a b c : Transaction) :
    amountLe a b → amountLe b c → amountLe a c := by
  simp only [amountLe, decide_eq_true_eq]
  exact le_trans

/-- `amountLe` is total. -/
theorem amountLe_total (a b : Transaction) : amountLe a b || amountLe b a := by
  simp only [amountLe, Bool.or_eq_true, decide_eq_true_eq]
  exact le_total _ _

/-- On the audit-logging manager, a load in which every row parses adds
all rows and appends one history entry per row, in row order. -/
theorem extLoadRows_all_ok (clock : Nat → PyDateTime) {rows : List CsvRow}
    {ws : List Transaction} (k : Nat) (s : ExtendedTransactionManager)
    (h : parseAll rows = Except.ok ws) :
    ExtendedTransactionManager.loadRows clock k s rows =
      (⟨s._transactions ++ ws, s._history ++ histEntries clock k ws⟩,
        Option.none) := by
  induction rows generalizing ws k s with
  | nil =>
    rw [parseAll] at h
    cases h
    simp [ExtendedTransactionManager.loadRows, histEntries]
  | cons r rs ih =>
    rw [parseAll] at h
    rcases hr : parseRow r with e | t <;> rw [hr] at h
    · cases h
    · rcases hrs : parseAll rs with e | us <;> rw [hrs] at h
      · cases h
      · cases h
        rw [ExtendedTransactionManager.loadRows, hr]
        show ExtendedTransactionManager.loadRows clock (k + 1)
            ⟨s._transactions ++ [t],
              s._history ++ [(clock k, "ADD", t.toDisplay)]⟩ rs = _
        rw [ih (k + 1) _ hrs]
        rw [histEntries]
        simp only [List.append_assoc, List.singleton_append]

/-! ### Claim theorems -/

/-- Claim C1: for every choice of field values with at least one invalid
field (negative or non-integer id, non-datetime timestamp, non-numeric
amount, non-string description), construction fails with the
`ValueError` of the first invalid field in assignment order — the
messages identify the field injectively — and the partial object holds
exactly the fields assigned before that one: every earlier field is
set and no field from the first invalid one onward is set. -/
theorem claim_C1 (idv dtv amv dev : PyVal) (f : TransField)
    (h : firstInvalid idv dtv amv dev = some f) :
    Transaction.init idv dtv amv dev =
      (objBefore f idv dtv amv, some (fieldErrMsg f)) ∧
    (∀ g g' : TransField, fieldErrMsg g = fieldErrMsg g' → g = g') := by
  refine ⟨?_, by intro g g'; cases g <;> cases g' <;> decide⟩
  cases hv1 : fieldValid TransField.id idv with
  | false =>
    rw [firstInvalid, hv1] at h
    simp at h
    subst h
    simp [Transaction.init, TransactionObj.setattr, hv1, objBefore]
  | true =>
    cases hv2 : fieldValid TransField.date_time dtv with
    | false =>
      rw [firstInvalid, hv1, hv2] at h
      simp at h
      subst h
      simp [Transaction.init, TransactionObj.setattr, hv1, hv2, objBefore,
        TransactionObj.store, TransactionObj.fresh]
    | true =>
      cases hv3 : fieldValid TransField.amount amv with
      | false =>
        rw [firstInvalid, hv1, hv2, hv3] at h
        simp at h
        subst h
        simp [Transaction.init, TransactionObj.setattr, hv1, hv2, hv3,
          objBefore, TransactionObj.store, TransactionObj.fresh]
      | true =>
        cases hv4 : fieldValid TransField.description dev with
        | false =>
          rw [firstInvalid, hv1, hv2, hv3, hv4] at h
          simp at h
          subst h
          simp [Transaction.init, TransactionObj.setattr, hv1, hv2, hv3, hv4,
            objBefore, TransactionObj.store, TransactionObj.fresh]
        | true =>
          rw [firstInvalid, hv1, hv2, hv3, hv4] at h
          simp at h

/-- Witness for C1 at a concrete input: a negative id fails construction
immediately, before any field is stored. -/
theorem claim_C1_witness :
    firstInvalid (PyVal.vint (-1)) (PyVal.vdatetime dtEx) (PyVal.vint 5)
        (PyVal.vstr "x") = some TransField.id ∧
    Transaction.init (PyVal.vint (-1)) (PyVal.vdatetime dtEx) (PyVal.vint 5)
        (PyVal.vstr "x") =
      (objBefore TransField.id (PyVal.vint (-1)) (PyVal.vdatetime dtEx)
          (PyVal.vint 5),
        some (fieldErrMsg TransField.id)) :=
  ⟨by decide,
    (claim_C1 (PyVal.vint (-1)) (PyVal.vdatetime dtEx) (PyVal.vint 5)
      (PyVal.vstr "x") TransField.id (by decide)).1⟩

/-- Claim C9: the static helper `validate_transaction_data` returns
`true` exactly when constructing a `Transaction` from the same four
values raises nothing — the helper applies the same four field rules as
construction. -/
theorem claim_C9 (idv dtv amv dev : PyVal) :
    TransactionCollection.validate_transaction_data idv dtv amv dev = true ↔
      (Transaction.init idv dtv amv dev).2 = Option.none := by
  have e1 : decide (idv.intVal < 0) = !decide (0 ≤ idv.intVal) := by
    rcases lt_or_le idv.intVal 0 with h0 | h0
    · rw [decide_eq_true h0, decide_eq_false (not_le.mpr h0)]
      rfl
    · rw [decide_eq_false (not_lt.mpr h0), decide_eq_true h0]
      rfl
  cases hI : idv.isInstInt <;> cases h0 : decide (0 ≤ idv.intVal) <;>
    cases hD : dtv.isInstDatetime <;>
    cases hA : (amv.isInstInt || amv.isInstFloat) <;>
    cases hS : dev.isInstStr <;>
    simp [TransactionCollection.validate_transaction_data, Transaction.init,
      TransactionObj.setattr, fieldValid, hI, h0, hD, hA, hS, e1]

/-- Witness for C9 at a concrete input: a fully valid quadruple is
accepted by both the static helper and construction. -/
theorem claim_C9_witness :
    TransactionCollection.validate_transaction_data (PyVal.vint 1)
        (PyVal.vdatetime dtEx) (PyVal.vfloat ⟨50, 1⟩) (PyVal.vstr "x") =
      true ↔
    (Transaction.init (PyVal.vint 1) (PyVal.vdatetime dtEx)
        (PyVal.vfloat ⟨50, 1⟩) (PyVal.vstr "x")).2 = Option.none :=
  claim_C9 (PyVal.vint 1) (PyVal.vdatetime dtEx) (PyVal.vfloat ⟨50, 1⟩)
    (PyVal.vstr "x")

/-- Claim C8: `add_transaction` on the base manager fails with the
type-mismatch `ValueError` — whose message differs from every field
validation message — on any non-`Transaction` argument, leaving the
collection unchanged, and otherwise appends the argument at the end,
leaving the earlier elements and their order unchanged. -/
theorem claim_C8 :
    (∀ (ts : List Transaction) (v : PyVal),
      TransactionManager.add_transaction ts (PyArg.other v) =
        (ts, some addErrMsg)) ∧
    (∀ f : TransField, addErrMsg ≠ fieldErrMsg f) ∧
    (∀ (ts : List Transaction) (t : Transaction),
      TransactionManager.add_transaction ts (PyArg.trans t) =
        (ts ++ [t], Option.none)) :=
  ⟨fun _ _ => rfl, by intro f; cases f <;> decide, fun _ _ => rfl⟩

/-- Witness for C8 at concrete inputs: adding a non-`Transaction` raises
and leaves the empty collection empty; adding a `Transaction` appends. -/
theorem claim_C8_witness :
    TransactionManager.add_transaction [] (PyArg.other PyVal.vnone) =
      ([], some addErrMsg) ∧
    TransactionManager.add_transaction [tRef1] (PyArg.trans tRef2) =
      ([tRef1, tRef2], Option.none) :=
  ⟨claim_C8.1 [] PyVal.vnone, claim_C8.2.2 [tRef1] tRef2⟩

/-- Claim C3: on the audit-logging manager, a successful
`add_transaction` appends exactly one history entry
`(now, "ADD", str(t))` after the base add has succeeded, and a failed
add (non-`Transaction` argument) raises the base error, leaving both the
collection and the history log unchanged. -/
theorem claim_C3 :
    (∀ (s : ExtendedTransactionManager) (now : PyDateTime) (t : Transaction),
      s.add_transaction now (PyArg.trans t) =
        (⟨s._transactions ++ [t],
          s._history ++ [(now, "ADD", t.toDisplay)]⟩, Option.none)) ∧
    (∀ (s : ExtendedTransactionManager) (now : PyDateTime) (v : PyVal),
      s.add_transaction now (PyArg.other v) = (s, some addErrMsg)) := by
  constructor
  · intro s now t
    rfl
  · intro s now v
    rfl

/-- Witness for C3 at concrete inputs: one "ADD" entry is appended on
success; nothing changes on failure. -/
theorem claim_C3_witness :
    ExtendedTransactionManager.add_transaction ⟨[], []⟩ dtEx
        (PyArg.trans tRef1) =
      (⟨[tRef1], [(dtEx, "ADD", tRef1.toDisplay)]⟩, Option.none) ∧
    ExtendedTransactionManager.add_transaction ⟨[tRef1], []⟩ dtEx
        (PyArg.other (PyVal.vstr "oops")) =
      (⟨[tRef1], []⟩, some addErrMsg) := by
  constructor
  · have h := claim_C3.1 ⟨[], []⟩ dtEx tRef1
    simpa using h
  · have h := claim_C3.2 ⟨[tRef1], []⟩ dtEx (PyVal.vstr "oops")
    simpa using h

/-- Claim C5: both sorts reorder the collection (a permutation of it)
into non-decreasing order by their key — numeric amount, case-sensitive
lexicographic description —, they are stable (two records in order with
equal keys stay in that order), and idempotent. -/
theorem claim_C5 (ts : List Transaction) :
    (TransactionManager.sort_by_amount ts).Pairwise
      (fun a b => a.amount.val ≤ b.amount.val) ∧
    (TransactionManager.sort_by_description ts).Pairwise
      (fun a b => a.description ≤ b.description) ∧
    (TransactionManager.sort_by_amount ts).Perm ts ∧
    (TransactionManager.sort_by_description ts).Perm ts ∧
    (∀ a b : Transaction, List.Sublist [a, b] ts → a.amount.val = b.amount.val →
      List.Sublist [a, b] (TransactionManager.sort_by_amount ts)) ∧
    (∀ a b : Transaction, List.Sublist [a, b] ts → a.description = b.description →
      List.Sublist [a, b] (TransactionManager.sort_by_description ts)) ∧
    TransactionManager.sort_by_amount (TransactionManager.sort_by_amount ts) =
      TransactionManager.sort_by_amount ts ∧
    TransactionManager.sort_by_description
        (TransactionManager.sort_by_description ts) =
      TransactionManager.sort_by_description ts := by
  refine ⟨?_, ?_, ?_, ?_, ?_, ?_, ?_, ?_⟩
  · exact (List.sorted_mergeSort amountLe_trans amountLe_total ts).imp
      (fun h => by simpa [amountLe] using h)
  · exact (List.sorted_mergeSort descrLe_trans descrLe_total ts).imp
      (fun h => by simpa [descrLe] using h)
  · exact List.mergeSort_perm ts amountLe
  · exact List.mergeSort_perm ts descrLe
  · intro a b hab heq
    exact List.pair_sublist_mergeSort amountLe_trans amountLe_total
      (by simp [amountLe, heq.le]) hab
  · intro a b hab heq
    exact List.pair_sublist_mergeSort descrLe_trans descrLe_total
      (by simp [descrLe, heq.le]) hab
  · exact List.mergeSort_of_sorted
      (List.sorted_mergeSort amountLe_trans amountLe_total ts)
  · exact List.mergeSort_of_sorted
      (List.sorted_mergeSort descrLe_trans descrLe_total ts)

/-- Witness for C5 at a concrete input: re-sorting the sorted list
changes nothing (idempotency conjunct of the claim theorem). -/
theorem claim_C5_witness :
    TransactionManager.sort_by_amount
        (TransactionManager.sort_by_amount [tRef2, tRef1, tPay]) =
      TransactionManager.sort_by_amount [tRef2, tRef1, tPay] :=
  (claim_C5 [tRef2, tRef1, tPay]).2.2.2.2.2.2.1

/-- Claim C6: `filter_by_amount(m)` yields exactly the transactions with
`amount >= m`, in collection order (it is the order-preserving filter of
the live list, which it reads and never mutates), and yields the empty
sequence when no record qualifies. -/
theorem claim_C6 (m : PyNum) (ts : List Transaction) :
    TransactionManager.filter_by_amount m ts =
      ts.filter (fun t => decide (m.val ≤ t.amount.val)) ∧
    (∀ t : Transaction, t ∈ TransactionManager.filter_by_amount m ts ↔
      t ∈ ts ∧ m.val ≤ t.amount.val) ∧
    ((∀ t ∈ ts, t.amount.val < m.val) →
      TransactionManager.filter_by_amount m ts = []) := by
  have hf : TransactionManager.filter_by_amount m ts =
      ts.filter (fun t => decide (m.val ≤ t.amount.val)) := by
    induction ts with
    | nil => rfl
    | cons t rest ih =>
      rw [TransactionManager.filter_by_amount, List.filter_cons]
      rcases le_or_lt m.val t.amount.val with hle | hlt
      · rw [if_pos hle, if_pos (by simpa using hle), ih]
      · rw [if_neg (by exact not_le.mpr hlt), if_neg (by simpa using hlt), ih]
  refine ⟨hf, ?_, ?_⟩
  · intro t
    rw [hf, List.mem_filter]
    simp
  · intro hnone
    rw [hf, List.filter_eq_nil_iff]
    intro t ht
    simpa using not_le.mpr (hnone t ht)

/-- Witness for C6 at a concrete input: with a threshold above every
amount, the filter yields the empty sequence. -/
theorem claim_C6_witness :
    TransactionManager.filter_by_amount (PyNum.int 100)
      [tRef1, tRef2, tPay] = [] :=
  (claim_C6 (PyNum.int 100) [tRef1, tRef2, tPay]).2.2 (by decide)

/-- Claim C7: the keyword search yields exactly the transactions whose
lower-cased description contains the lower-cased keyword as a contiguous
substring (not tokenized), in collection order; it yields the empty
sequence when nothing matches; and with keyword "REF" it matches
"invoice ref-22" and "REFUND" but not "payment". -/
theorem claim_C7 (keyword : String) (ts : List Transaction) :
    ExtendedTransactionManager.get_transactions_by_description keyword ts =
      ts.filter (fun t => hasSeg (keyword.toList.map Char.toLower)
        (t.description.toList.map Char.toLower)) ∧
    (∀ t : Transaction,
      t ∈ ExtendedTransactionManager.get_transactions_by_description
          keyword ts ↔
        t ∈ ts ∧ ∃ p q, t.description.toList.map Char.toLower =
          p ++ (keyword.toList.map Char.toLower ++ q)) ∧
    ((∀ t ∈ ts, ¬ hasSeg (keyword.toList.map Char.toLower)
        (t.description.toList.map Char.toLower) = true) →
      ExtendedTransactionManager.get_transactions_by_description keyword ts
        = []) ∧
    ExtendedTransactionManager.get_transactions_by_description "REF"
      [tRef1, tRef2, tPay] = [tRef1, tRef2] := by
  have hf : ExtendedTransactionManager.get_transactions_by_description
      keyword ts = ts.filter (fun t => hasSeg (keyword.toList.map Char.toLower)
        (t.description.toList.map Char.toLower)) := by
    induction ts with
    | nil => rfl
    | cons t rest ih =>
      rw [ExtendedTransactionManager.get_transactions_by_description,
        List.filter_cons]
      cases hm : hasSeg (keyword.toList.map Char.toLower)
          (t.description.toList.map Char.toLower) with
      | false => rw [if_neg (by simp [hm]), if_neg (by simp [hm]), ih]
      | true => rw [if_pos (by simp [hm]), if_pos (by simp [hm]), ih]
  refine ⟨hf, ?_, ?_, by decide⟩
  · intro t
    rw [hf, List.mem_filter, hasSeg_iff]
  · intro hnone
    rw [hf, List.filter_eq_nil_iff]
    intro t ht
    simpa using hnone t ht

/-- Witness for C7 at a concrete input: searching "REF" over the three
example records yields the two matching ones, in order. -/
theorem claim_C7_witness :
    ExtendedTransactionManager.get_transactions_by_description "REF"
      [tRef1, tRef2, tPay] = [tRef1, tRef2] :=
  (claim_C7 "REF" [tRef1, tRef2, tPay]).2.2.2

/-- Every history-entry list produced by a bulk load has one entry per
added transaction. -/
theorem histEntries_length (clock : Nat → PyDateTime) (k : Nat)
    (ws : List Transaction) :
    (histEntries clock k ws).length = ws.length := by
  induction ws generalizing k with
  | nil => rfl
  | cons t rest ih =>
    rw [histEntries, List.length_cons, List.length_cons, ih]

/-- Every history entry produced by a bulk load has action kind "ADD". -/
theorem histEntries_action (clock : Nat → PyDateTime) (k : Nat)
    (ws : List Transaction) :
    ∀ en ∈ histEntries clock k ws, en.2.1 = "ADD" := by
  induction ws generalizing k with
  | nil =>
    intro en hen
    cases hen
  | cons t rest ih =>
    intro en hen
    rw [histEntries, List.mem_cons] at hen
    rcases hen with rfl | hen
    · rfl
    · exact ih (k + 1) en hen

/-- Claim C2: saving a collection of well-formed transactions to a
destination and loading that destination back into a fresh manager
yields exactly as many transactions, equal to the originals in id,
description, amount value (hence to two-decimal precision) and
timestamp to one-second precision, in the original order. -/
theorem claim_C2 (filename : String) (ts : List Transaction)
    (h : ∀ t ∈ ts, t.Valid) :
    TransactionManager.from_csv filename
        (some (TransactionManager.save_to_csv ts)) =
      (ts.map reload, Option.none) ∧
    (ts.map reload).length = ts.length ∧
    (∀ t : Transaction, (reload t).id = t.id ∧
      (reload t).description = t.description ∧
      (reload t).amount.val = t.amount.val ∧
      (reload t).date_time = t.date_time.truncSec) := by
  refine ⟨?_, List.length_map _ _, ?_⟩
  · rw [TransactionManager.from_csv, TransactionManager.load_from_csv]
    have h1 := @loadRows_all_ok (TransactionManager.save_to_csv ts)
      (ts.map reload) [] (parseAll_save h)
    simpa using h1
  · intro t
    refine ⟨rfl, rfl, ?_, rfl⟩
    rcases ham : t.amount with n | d
    · simp [reload, ham, PyNum.val, PyFloat.val]
    · simp [reload, ham, PyNum.val]

/-- Witness for C2 at a concrete input: one valid transaction survives
the round trip. -/
theorem claim_C2_witness :
    tRef1.Valid ∧
    TransactionManager.from_csv "data.csv"
        (some (TransactionManager.save_to_csv [tRef1])) =
      ([reload tRef1], Option.none) := by
  constructor
  · decide
  · have h := (claim_C2 "data.csv" [tRef1] (by decide)).1
    simpa using h

/-- Claim C4: loading a non-existent source raises a
`FileNotFoundError` whose message carries the source name, leaving the
collection unchanged; loading a source whose first `k - 1` rows parse
and whose row `k` is the first malformed one stops at row `k`, leaving
exactly the transactions of rows `1 .. k-1` appended to the
collection. -/
theorem claim_C4 :
    (∀ (filename : String) (ts : List Transaction),
      TransactionManager.load_from_csv filename Option.none ts =
        (ts, some (notFoundMsg filename)) ∧
      hasSeg filename.toList (notFoundMsg filename).toList = true) ∧
    (∀ (good : List CsvRow) (ws : List Transaction) (bad : CsvRow)
        (e : String) (rest : List CsvRow) (ts : List Transaction),
      parseAll good = Except.ok ws → parseRow bad = Except.error e →
      TransactionManager.loadRows ts (good ++ bad :: rest) =
        (ts ++ ws, some e)) := by
  constructor
  · intro filename ts
    refine ⟨rfl, ?_⟩
    rw [hasSeg_iff]
    exact ⟨"Файл ".toList, " не найден!".toList,
      by rw [notFoundMsg, strToList_append, strToList_append,
        List.append_assoc]⟩
  · intro good ws bad e rest ts hg hb
    exact loadRows_first_bad rest hg hb

/-- Witness for C4 at concrete inputs: a missing file raises with the
filename in the message and changes nothing; a malformed second row
stops the load with exactly the first row's transaction appended. -/
theorem claim_C4_witness :
    TransactionManager.load_from_csv "data.csv" Option.none [] =
      ([], some (notFoundMsg "data.csv")) ∧
    TransactionManager.loadRows [] [rowOk, rowBad] =
      ([tOk], some "invalid literal for int(): abc") := by
  constructor
  · exact (claim_C4.1 "data.csv" []).1
  · have h := claim_C4.2 [rowOk] [tOk] rowBad
      "invalid literal for int(): abc" [] [] (by rfl) (by rfl)
    simpa using h

/-- Claim C10: bulk loading on the audit-logging manager goes through
the overridden `add_transaction`, so a load in which every row parses
appends one "ADD" history entry per loaded row, in row order: exactly
`N` entries for `N` well-formed rows. -/
theorem claim_C10 (clock : Nat → PyDateTime) (k : Nat)
    (s : ExtendedTransactionManager) (rows : List CsvRow)
    (ws : List Transaction) (h : parseAll rows = Except.ok ws) :
    ExtendedTransactionManager.loadRows clock k s rows =
      (⟨s._transactions ++ ws, s._history ++ histEntries clock k ws⟩,
        Option.none) ∧
    (histEntries clock k ws).length = ws.length ∧
    (∀ en ∈ histEntries clock k ws, en.2.1 = "ADD") :=
  ⟨extLoadRows_all_ok clock k s h, histEntries_length clock k ws,
    histEntries_action clock k ws⟩

/-- Witness for C10 at a concrete input: loading one well-formed row on
a fresh audit-logging manager appends the row and exactly one "ADD"
history entry. -/
theorem claim_C10_witness :
    ExtendedTransactionManager.loadRows (fun _ => dtEx) 0 ⟨[], []⟩
        [rowOk] =
      (⟨[tOk], [(dtEx, "ADD", tOk.toDisplay)]⟩, Option.none) := by
  have h := (claim_C10 (fun _ => dtEx) 0 ⟨[], []⟩ [rowOk] [tOk]
    (by rfl)).1
  simpa [histEntries] using h
